import Mathlib

/-!
Verification development for the chronos-foundry resumable training orchestrator.

Shallow embedding of the core components:
* `ResumableDataLoader` (src/chronos_trainer/data/resumable_loader.py)
* `CheckpointManager` (src/chronos_trainer/training/checkpoint_manager.py)
* `IncrementalTrainer.train_with_checkpoints` (src/chronos_trainer/training/incremental_trainer.py)
* `ModelVersioning` (src/chronos_trainer/training/model_versioning.py)

Modelling conventions:
* Calendar dates are records of naturals; `datetime` comparison is lexicographic.
* Parquet file names are abstracted as naturals ordered the way the path
  strings are (Python sorts the paths of one month directory by name).
* The while-loop over months in `get_parquet_files` is embedded with explicit
  fuel; the fuel chosen at the call site provably dominates the number of
  iterations the Python loop performs.
* Filesystem state is explicit: the checkpoint directory is a `CMState`, the
  version store a `MVState`; every operation is a pure state transformer.
* I/O failure is injected through outcome records (`SaveOutcome`): each `try`
  block of the source corresponds to a boolean saying whether the guarded
  operation succeeded.
* Model objects (AutoGluon predictors) are opaque naturals; fitting is an
  uninterpreted function supplied by the run environment, exactly as the spec
  treats the fit capability as an external collaborator.
-/

namespace Chronos

/-- Calendar date `(year, month, day)` as parsed from a `YYYY-MM-DD` string by
`datetime.strptime`. -/
structure Date where
  year : Nat
  month : Nat
  day : Nat
deriving DecidableEq, Repr

/-- The `datetime` comparison `a <= b`: lexicographic on (year, month, day). -/
def Date.ble (a b : Date) : Bool :=
  a.year < b.year ||
    (a.year = b.year && (a.month < b.month || (a.month = b.month && a.day ≤ b.day)))

/-- A date that `datetime` would actually produce: month in 1..12, day ≥ 1. -/
def Date.Valid (d : Date) : Prop :=
  1 ≤ d.month ∧ d.month ≤ 12 ∧ 1 ≤ d.day

instance (d : Date) : Decidable d.Valid := by
  unfold Date.Valid
  infer_instance

/-- Partition key `(year, month)`. -/
abbrev MonthKey := Nat × Nat

/-- Strict chronological order on partition keys. -/
def keyLt (a b : MonthKey) : Bool :=
  a.1 < b.1 || (a.1 = b.1 && a.2 < b.2)

/-- Chronological order (non-strict) on partition keys. -/
def keyLe (a b : MonthKey) : Bool :=
  a.1 < b.1 || (a.1 = b.1 && a.2 ≤ b.2)

theorem dateBle_iff (a b : Date) :
    Date.ble a b = true ↔
      (a.year < b.year ∨ (a.year = b.year ∧
        (a.month < b.month ∨ (a.month = b.month ∧ a.day ≤ b.day)))) := by
  simp [Date.ble]

theorem keyLt_iff (a b : MonthKey) :
    keyLt a b = true ↔ (a.1 < b.1 ∨ (a.1 = b.1 ∧ a.2 < b.2)) := by
  simp [keyLt]

theorem keyLe_iff (a b : MonthKey) :
    keyLe a b = true ↔ (a.1 < b.1 ∨ (a.1 = b.1 ∧ a.2 ≤ b.2)) := by
  simp [keyLe]

/-- The month counter used to step the Python loop: the index of the month of
`d` when months are numbered consecutively (`year * 12 + (month - 1)`). -/
def monthIdx (d : Date) : Nat := d.year * 12 + (d.month - 1)

/-- Decode a month counter back into a `(year, month)` key. -/
def idxKey (i : Nat) : MonthKey := (i / 12, i % 12 + 1)

/-- The first calendar day of the month with counter `i` — the value of
`current` in the loop of `get_parquet_files` (`start_dt.replace(day=1)` then
advanced month by month). -/
def firstOfIdx (i : Nat) : Date := ⟨i / 12, i % 12 + 1, 1⟩

/-- One entry of the loader's result list: the tuple
`(file_path, year, month)`.  The path is abstracted to the file's name; the
full Python path `base/YYYY/MM/name` is determined by the whole record. -/
structure PEntry where
  path : Nat
  year : Nat
  month : Nat
deriving DecidableEq, Repr

/-- Contents of the partition source: the parquet files present in directory
`YYYY/MM/` (a missing directory is the empty list — `month_dir.exists()`
failing contributes no files). -/
abbrev FS := Nat → Nat → List Nat

/-- The months visited by the `while current <= end_dt` loop of
`get_parquet_files`, starting at month counter `idx`, with explicit fuel.
Each iteration checks `current <= end_dt` for the first day of the month and
then advances to the next month. -/
def collectMonths (e : Date) : Nat → Nat → List MonthKey
  | 0, _ => []
  | fuel + 1, idx =>
    if Date.ble (firstOfIdx idx) e then idxKey idx :: collectMonths e fuel (idx + 1)
    else []

/-- Fuel that dominates the iteration count of the month loop: the loop body
runs only while the month counter is below `e.year * 12 + e.month`. -/
def monthFuel (s e : Date) : Nat := e.year * 12 + e.month + 1 - monthIdx s

/-- `ResumableDataLoader.get_parquet_files`: iterate every month of the range,
list the parquet files of each existing month directory sorted by name, and
return `(file, year, month)` tuples in month order. -/
def get_parquet_files (fs : FS) (start_date end_date : Date) : List PEntry :=
  (collectMonths end_date (monthFuel start_date end_date) (monthIdx start_date)).flatMap
    fun k => (List.insertionSort (· ≤ ·) (fs k.1 k.2)).map fun f => ⟨f, k.1, k.2⟩

/-- One entry of `training_state["processed_files"]`: the record appended by
`train_with_checkpoints` after a partition is fitted. -/
structure ProcRec where
  file_path : Nat
  year : Nat
  month : Nat
  record_count : Nat
deriving DecidableEq, Repr

/-- The training-state dictionary built by `train_with_checkpoints` and
persisted by `CheckpointManager._save_training_state`.  The four date fields
are stored as the `YYYY-MM-DD` strings they were given; they are kept here as
the parsed dates, which the strings determine. -/
structure TrainingState where
  start_date : Date
  end_date : Date
  validation_start_date : Date
  validation_end_date : Date
  processed_files : List ProcRec
  total_files : Nat
deriving DecidableEq, Repr

/-- The set of `(year, month)` pairs recorded in the training state — the
lookup set `processed_files` that `get_remaining_files` builds. -/
def processedMonths (ts : TrainingState) : List MonthKey :=
  ts.processed_files.map fun r => (r.year, r.month)

/-- Contents of one checkpoint descriptor file `checkpoint_YYYY_MM.json`
(the `checkpoint_data` dictionary written by `save_checkpoint`; `timestamp`
and `checkpoint_name` are determined by `mtime` and the key and are not
repeated). `model_path` references `model_YYYY_MM.pkl` by its key. -/
structure CheckpointData where
  year : Nat
  month : Nat
  model_path : MonthKey
  data_stats : Nat
  training_state : TrainingState
deriving DecidableEq, Repr

/-- One descriptor file on disk: its name key `checkpoint_{y}_{m}.json`, its
filesystem modification time, and its JSON contents. -/
structure DescFile where
  key : MonthKey
  mtime : Nat
  data : CheckpointData
deriving DecidableEq, Repr

/-- The on-disk state owned by a `CheckpointManager`: the `checkpoints/`
descriptor directory, the `model_checkpoints/` snapshot directory (snapshot
payloads are opaque naturals), the fixed `training_state.json` file, and a
clock supplying strictly increasing modification times. -/
structure CMState where
  descriptors : List DescFile
  models : List (MonthKey × Nat)
  trainingState : Option TrainingState
  clock : Nat
deriving DecidableEq, Repr

/-- A fresh, empty checkpoint directory (what `CheckpointManager.__init__`
creates when nothing exists yet). -/
def CMState.empty : CMState := ⟨[], [], none, 0⟩

/-- Which of the filesystem operations inside one `save_checkpoint` call
succeed.  Each field guards one `try`-protected step of the source:
descriptor unlinking in `_cleanup_previous_checkpoint`, `model.save()`, the
descriptor `json.dump`, and the `json.dump` in `_save_training_state`. -/
structure SaveOutcome where
  cleanupOk : Bool
  modelOk : Bool
  descOk : Bool
  stateOk : Bool
deriving DecidableEq, Repr

/-- The outcome in which every filesystem operation succeeds. -/
def SaveOutcome.allOk : SaveOutcome := ⟨true, true, true, true⟩

/-- Side effects produced by the checkpoint subsystem and the training loop,
in the order they are performed. -/
inductive Ev where
  | cleanupDescriptors
  | modelSave (key : MonthKey)
  | descriptorWrite (key : MonthKey)
  | trainingStateWrite
  | fit (path : Nat) (key : MonthKey)
deriving DecidableEq, Repr

/-- Writing file `checkpoint_{y}_{m}.json`: replaces a descriptor with the
same name, otherwise creates a new one. -/
def writeDescriptor (l : List DescFile) (d : DescFile) : List DescFile :=
  if l.any fun x => x.key = d.key then l.map fun x => if x.key = d.key then d else x
  else l ++ [d]

/-- Writing file `model_{y}_{m}.pkl` with payload `v`. -/
def writeModel (l : List (MonthKey × Nat)) (k : MonthKey) (v : Nat) : List (MonthKey × Nat) :=
  if l.any fun x => x.1 = k then l.map fun x => if x.1 = k then (k, v) else x
  else l ++ [(k, v)]

/-- `CheckpointManager.save_checkpoint`.  Returns the new directory state, the
boolean result, and the trace of side effects in the order performed:
(1) `_cleanup_previous_checkpoint` unlinks every `checkpoint_*.json` (its own
`try` swallows failure and the save continues); (2) `model.save()` — on
failure the outer `except` returns `False`; (3) the descriptor `json.dump` —
likewise fatal; (4) `_save_training_state` — its own `try` swallows failure,
and `True` is returned. -/
def save_checkpoint (cm : CMState) (year month : Nat) (model : Nat)
    (data_stats : Nat) (training_state : TrainingState) (o : SaveOutcome) :
    CMState × Bool × List Ev :=
  let cm1 := if o.cleanupOk then { cm with descriptors := [] } else cm
  let tr1 : List Ev := if o.cleanupOk then [.cleanupDescriptors] else []
  if o.modelOk = false then (cm1, false, tr1)
  else
    let cm2 := { cm1 with models := writeModel cm1.models (year, month) model }
    let tr2 := tr1 ++ [.modelSave (year, month)]
    if o.descOk = false then (cm2, false, tr2)
    else
      let d : DescFile :=
        ⟨(year, month), cm2.clock, ⟨year, month, (year, month), data_stats, training_state⟩⟩
      let cm3 :=
        { cm2 with
          descriptors := writeDescriptor cm2.descriptors d
          clock := cm2.clock + 1 }
      let tr3 := tr2 ++ [.descriptorWrite (year, month)]
      if o.stateOk then
        ({ cm3 with trainingState := some training_state }, true, tr3 ++ [.trainingStateWrite])
      else (cm3, true, tr3)

/-- The descriptor `get_last_checkpoint` selects: the files sorted by
modification time newest first, then the head — i.e. the earliest-listed
descriptor of maximal `mtime` (Python's sort is stable). -/
def latestDescriptor : List DescFile → Option DescFile
  | [] => none
  | d :: ds =>
    match latestDescriptor ds with
    | none => some d
    | some e => if e.mtime ≤ d.mtime then some d else some e

/-- Look a model snapshot file up by its name key (`os.path.exists` plus
`TimeSeriesPredictor.load`). -/
def lookupKey (k : MonthKey) : List (MonthKey × Nat) → Option Nat
  | [] => none
  | x :: rest => if x.1 = k then some x.2 else lookupKey k rest

/-- `CheckpointManager.get_last_checkpoint`: pick the most recently modified
descriptor; attach the referenced model snapshot when its file exists. -/
def get_last_checkpoint (cm : CMState) : Option (CheckpointData × Option Nat) :=
  match latestDescriptor cm.descriptors with
  | none => none
  | some d => some (d.data, lookupKey d.data.model_path cm.models)

/-- `CheckpointManager.load_training_state`: read `training_state.json` if it
exists. -/
def load_training_state (cm : CMState) : Option TrainingState :=
  cm.trainingState

/-- The processed-months lookup set that `get_remaining_files` derives from a
checkpoint directory (empty when no training state has been persisted). -/
def processedOf (cm : CMState) : List MonthKey :=
  match load_training_state cm with
  | some ts => processedMonths ts
  | none => []

/-- `ResumableDataLoader.get_remaining_files`: all files of the range, minus
those whose `(year, month)` appears in the persisted training state.  With no
checkpoint manager every file is returned. -/
def get_remaining_files (fs : FS) (cmOpt : Option CMState) (start_date end_date : Date) :
    List PEntry :=
  let all_files := get_parquet_files fs start_date end_date
  match cmOpt with
  | none => all_files
  | some cm =>
    all_files.filter fun p => decide ((p.year, p.month) ∉ processedOf cm)

/-- The performance-metric dictionary produced by
`_evaluate_model_performance` and stored in version metadata: every producer
in the code returns exactly the keys `mae`, `rmse`, `mase`,
`directional_accuracy`.  Values are modelled as rationals. -/
structure Metrics where
  mae : ℚ
  rmse : ℚ
  mase : ℚ
  directional_accuracy : ℚ
deriving DecidableEq, Repr

/-- Two-digit zero-padded rendering of a month (`f"{month:02d}"`). -/
def pad2 (n : Nat) : String :=
  if n < 10 then "0" ++ toString n else toString n

/-- Four-digit zero-padded rendering of a year (`f"{year:04d}"`). -/
def pad4 (n : Nat) : String :=
  if n < 10 then "000" ++ toString n
  else if n < 100 then "00" ++ toString n
  else if n < 1000 then "0" ++ toString n
  else toString n

/-- The structured result dictionary returned by `train_with_checkpoints`
(fields absent from a branch's dictionary are `none`). -/
structure RunResult where
  status : String
  message : String
  checkpoint_dir : String
  final_model_path : Option String := none
  performance : Option Metrics := none
  processed_files : Option Nat := none
  total_files : Option Nat := none
deriving DecidableEq, Repr

/-- The external collaborators of one `train_with_checkpoints` run: whether
each partition's parquet load and TimeSeriesDataFrame conversion succeed, the
loaded record counts and data statistics, the opaque fit capability
(`_train_predictor`), the filesystem outcome of each checkpoint save, and the
results of the final validation/evaluation/final-save steps. -/
structure RunEnv where
  loadOk : PEntry → Bool
  recordCount : PEntry → Nat
  convertOk : PEntry → Bool
  fit : Option Nat → PEntry → Nat
  stats : PEntry → Nat
  saveOutcome : PEntry → SaveOutcome
  validationLoadOk : PEntry → Bool
  validationConvertOk : Bool
  evalMetrics : Metrics
  finalModelPath : String

/-- How the `for file_path, year, month in remaining_files` loop ends: either
a checkpoint save returned `False` at partition `(year, month)` (the loop
returns an error result), or every partition was handled. -/
inductive LoopExit where
  | failed (year month : Nat) (cm : CMState) (trace : List Ev)
  | finished (cm : CMState) (predictor : Option Nat) (ts : TrainingState) (trace : List Ev)
deriving DecidableEq, Repr

/-- The partition loop of `train_with_checkpoints`: for each remaining file,
load it (a `None` load is logged and the file skipped), convert it (likewise),
fit, append a processing record, and save a checkpoint; a `False` save aborts
with an error naming the partition. -/
def processLoop (env : RunEnv) (cm : CMState) (predictor : Option Nat)
    (ts : TrainingState) (trace : List Ev) : List PEntry → LoopExit
  | [] => .finished cm predictor ts trace
  | p :: rest =>
    if env.loadOk p = false then processLoop env cm predictor ts trace rest
    else if env.convertOk p = false then processLoop env cm predictor ts trace rest
    else
      let pred' := env.fit predictor p
      let trace1 := trace ++ [.fit p.path (p.year, p.month)]
      let ts' :=
        { ts with processed_files :=
            ts.processed_files ++ [⟨p.path, p.year, p.month, env.recordCount p⟩] }
      let r := save_checkpoint cm p.year p.month pred' (env.stats p) ts' (env.saveOutcome p)
      let trace2 := trace1 ++ r.2.2
      if r.2.1 = true then processLoop env r.1 (some pred') ts' trace2 rest
      else .failed p.year p.month r.1 trace2

/-- The predictor adopted at the start of a run: the model snapshot attached
to the last checkpoint, if any (`last_checkpoint.get("model")`). -/
def adoptedPredictor (cm : CMState) : Option Nat :=
  match get_last_checkpoint cm with
  | some (_, m) => m
  | none => none

/-- A fresh training state for the requested ranges. -/
def freshTrainingState (s e vs ve : Date) : TrainingState :=
  ⟨s, e, vs, ve, [], 0⟩

/-- The training state adopted at the start of a run: the one embedded in the
last checkpoint, or a fresh one when starting from scratch. -/
def adoptedState (cm : CMState) (s e vs ve : Date) : TrainingState :=
  match get_last_checkpoint cm with
  | some (d, _) => d.training_state
  | none => freshTrainingState s e vs ve

/-- `IncrementalTrainer._load_validation_data` reduced to its observable
outcome: whether a validation `TimeSeriesDataFrame` is obtained.  It is iff
the validation range contains files, at least one of them loads, and the
combined conversion succeeds. -/
def load_validation_data (env : RunEnv) (fs : FS) (vs ve : Date) : Bool :=
  let validation_files := get_parquet_files fs vs ve
  if validation_files.isEmpty then false
  else if validation_files.any env.validationLoadOk then env.validationConvertOk
  else false

/-- The neutral placeholder metrics used when no validation data is found. -/
def placeholderMetrics : Metrics := ⟨0, 0, 1, 1 / 2⟩

/-- `IncrementalTrainer.train_with_checkpoints`: resume from the last
checkpoint (or start fresh), compute the remaining files, return immediately
when nothing is left, otherwise run the partition loop and, on success,
validate and save the final model.  Returns the result dictionary, the final
checkpoint-directory state, and the trace of side effects. -/
def train_with_checkpoints (env : RunEnv) (fs : FS) (cm : CMState)
    (s e vs ve : Date) (checkpoint_dir : String) : RunResult × CMState × List Ev :=
  let predictor := adoptedPredictor cm
  let ts0 := adoptedState cm s e vs ve
  let remaining := get_remaining_files fs (some cm) s e
  let ts1 := { ts0 with total_files := remaining.length }
  if remaining.isEmpty then
    ({ status := "completed", message := "All files already processed",
       checkpoint_dir := checkpoint_dir }, cm, [])
  else
    match processLoop env cm predictor ts1 [] remaining with
    | .failed y m cm' tr =>
      ({ status := "error",
         message := "Failed to save checkpoint for " ++ pad4 y ++ "-" ++ pad2 m,
         checkpoint_dir := checkpoint_dir }, cm', tr)
    | .finished cm' _ ts' tr =>
      let performance :=
        if load_validation_data env fs vs ve then env.evalMetrics else placeholderMetrics
      ({ status := "completed", message := "Resumable training completed successfully",
         checkpoint_dir := checkpoint_dir,
         final_model_path := some env.finalModelPath,
         performance := some performance,
         processed_files := some ts'.processed_files.length,
         total_files := some ts'.total_files }, cm', tr)

/-- Filesystem paths as component lists (`data/models/incremental/v1` is
`["data", "models", "incremental", "v1"]`). -/
abbrev FPath := List String

/-- Python dictionary assignment `d[k] = v` on an insertion-ordered
association list: update in place if the key exists, else append. -/
def dictInsert {β : Type} (l : List (String × β)) (k : String) (v : β) :
    List (String × β) :=
  if l.any fun x => x.1 = k then l.map fun x => if x.1 = k then (k, v) else x
  else l ++ [(k, v)]

/-- Python `del d[k]` (keys are unique, so removal of every binding of `k`
coincides with deleting the single one). -/
def dictErase {β : Type} (l : List (String × β)) (k : String) : List (String × β) :=
  l.filter fun x => decide ¬x.1 = k

/-- `mkdir` for a directory whose parents already exist. -/
def addDir (disk : List FPath) (p : FPath) : List FPath :=
  if p ∈ disk then disk else disk ++ [p]

/-- `shutil.rmtree p`: remove directory `p` and everything below it. -/
def rmtree (disk : List FPath) (p : FPath) : List FPath :=
  disk.filter fun q => decide ¬p.isPrefixOf q

/-- One value of `model_versions`: the per-version record written by
`update_version_tracking` (`created_at` is the creation timestamp, modelled
by a strictly increasing clock — ISO timestamps sort chronologically). -/
structure VInfo where
  model_path : FPath
  date_range : String × String
  performance_metrics : Metrics
  created_at : Nat
deriving DecidableEq, Repr

/-- The state owned by a `ModelVersioning` instance: its configuration, the
in-memory tracking dictionaries and version pointers, the version-store
filesystem, and the clock supplying creation timestamps. -/
structure MVState where
  model_base_path : FPath
  max_versions : Nat
  model_versions : List (String × VInfo)
  performance_history : List (String × Metrics)
  current_version : Option String
  previous_version : Option String
  disk : List FPath
  clock : Nat
deriving DecidableEq, Repr

/-- `ModelVersioning.__init__`: empty tracking, no version pointers, and the
base path created on disk. -/
def MVState.init (base : FPath) (max_versions : Nat) : MVState :=
  ⟨base, max_versions, [], [], none, none, [base], 0⟩

/-- `ModelVersioning.calculate_performance_improvement`: the fractional MAE
reduction, clamped below at zero; zero when the previous MAE is zero.  Both
metric dictionaries carry their `mae` key (every producer in the code writes
it), so the `.get` defaults are never taken. -/
def calculate_performance_improvement (current_metrics previous_metrics : Metrics) : ℚ :=
  let current_mae := current_metrics.mae
  let previous_mae := previous_metrics.mae
  if previous_mae = 0 then 0
  else max 0 ((previous_mae - current_mae) / previous_mae)

/-- `ModelVersioning.save_model_version`: create the version directory under
the base path, move the saved model payload into it, write the metadata
descriptor, and return its path (`str(version_dir)`).  The payload and
metadata live inside the version directory and are modelled by the directory
itself. -/
def save_model_version (st : MVState) (version_id : String) : MVState × FPath :=
  let version_dir := st.model_base_path ++ [version_id]
  ({ st with disk := addDir st.disk version_dir }, version_dir)

/-- `ModelVersioning.update_version_tracking`: rotate the current pointer into
the previous pointer, point current at the new version, and record the
version info and performance history with the creation timestamp. -/
def update_version_tracking (st : MVState) (version_id : String) (model_path : FPath)
    (date_range : String × String) (performance_metrics : Metrics) : MVState :=
  { st with
    previous_version := st.current_version
    current_version := some version_id
    model_versions :=
      dictInsert st.model_versions version_id
        ⟨model_path, date_range, performance_metrics, st.clock⟩
    performance_history :=
      dictInsert st.performance_history version_id performance_metrics
    clock := st.clock + 1 }

/-- One iteration of the eviction loop in `cleanup_old_versions`: remove
`model_path.parent` from disk if it exists (note: the *parent*, i.e. the
shared base directory — exactly what the source does), then delete the
version from both tracking dictionaries. -/
def evictVersion (st : MVState) (v : String × VInfo) : MVState :=
  let parent := v.2.model_path.dropLast
  { st with
    disk := if parent ∈ st.disk then rmtree st.disk parent else st.disk
    model_versions := dictErase st.model_versions v.1
    performance_history := dictErase st.performance_history v.1 }

/-- `ModelVersioning.cleanup_old_versions`: when the tracked count exceeds
`max_versions`, evict the oldest versions (sorted by `created_at`) until the
bound is met. -/
def cleanup_old_versions (st : MVState) : MVState :=
  if st.model_versions.length ≤ st.max_versions then st
  else
    let sorted_versions :=
      List.insertionSort (fun a b => a.2.created_at ≤ b.2.created_at) st.model_versions
    let versions_to_remove := st.model_versions.length - st.max_versions
    (sorted_versions.take versions_to_remove).foldl evictVersion st

/-- Registering one new version the way `train_incremental` does it: save the
version directory, then track it. -/
def registerVersion (st : MVState) (version_id : String) (date_range : String × String)
    (performance_metrics : Metrics) : MVState :=
  let r := save_model_version st version_id
  update_version_tracking r.1 version_id r.2 date_range performance_metrics

/-- Register a list of versions in order. -/
def registerAll (dr : String → String × String) (mtr : String → Metrics) :
    MVState → List String → MVState
  | st, [] => st
  | st, v :: vs => registerAll dr mtr (registerVersion st v (dr v) (mtr v)) vs

/-- The tracking entries produced by registering `vids` in order starting at
clock `c` (proof helper describing `registerAll`'s effect). -/
def buildVersions (base : FPath) (dr : String → String × String) (mtr : String → Metrics) :
    List String → Nat → List (String × VInfo)
  | [], _ => []
  | v :: vs, c => (v, ⟨base ++ [v], dr v, mtr v, c⟩) :: buildVersions base dr mtr vs (c + 1)

/-- A value of the result dictionary returned by `rollback_to_previous`. -/
inductive RVal where
  | bool (b : Bool)
  | str (s : String)
  | null
deriving DecidableEq, Repr

/-- A possibly-`None` string value. -/
def optStr : Option String → RVal
  | some s => .str s
  | none => .null

/-- `ModelVersioning.rollback_to_previous`: drop the failed version's
tracking record if present, restore the current pointer to the previous
version when one exists, and return the result dictionary.  Nothing on disk
is touched.  (Version ids are never the empty string, so Python truthiness of
`self.previous_version` is `Option.isSome`.) -/
def rollback_to_previous (st : MVState) (failed_version_id : String) :
    MVState × List (String × RVal) :=
  let mv := dictErase st.model_versions failed_version_id
  let cur :=
    match st.previous_version with
    | some p => some p
    | none => st.current_version
  ({ st with model_versions := mv, current_version := cur },
   [("success", .bool false), ("rollback", .bool true),
    ("current_version", optStr cur), ("failed_version", .str failed_version_id),
    ("message", .str "Model performance below threshold, rolled back to previous version")])

/-- The arguments of one `save_checkpoint` call. -/
structure SaveReq where
  year : Nat
  month : Nat
  model : Nat
  data_stats : Nat
  training_state : TrainingState
deriving DecidableEq, Repr

/-- Run a sequence of `save_checkpoint` calls, each with its filesystem
outcome, threading the checkpoint-directory state. -/
def runSaves : CMState → List (SaveReq × SaveOutcome) → CMState
  | cm, [] => cm
  | cm, (r, o) :: rest =>
    runSaves (save_checkpoint cm r.year r.month r.model r.data_stats r.training_state o).1 rest

/-- The descriptor file that a fully successful save of request `r` leaves
behind, written at time `t`. -/
def reqDescriptor (r : SaveReq) (t : Nat) : DescFile :=
  ⟨(r.year, r.month), t, ⟨r.year, r.month, (r.year, r.month), r.data_stats, r.training_state⟩⟩

/-! ### Concrete instances used by witnesses and counterexamples -/

/-- A data root holding two parquet files in `2020/01/` and nothing else. -/
def fsJan : FS := fun y m => if y = 2020 && m = 1 then [1, 2] else []

/-- A data root with one file per month in `2020/01..03` and nothing else. -/
def fsQ1 : FS := fun y m =>
  if y = 2020 && (m = 1 || m = 2 || m = 3) then [10 * m] else []

/-- January 1, 2020. -/
def dJan1 : Date := ⟨2020, 1, 1⟩

/-- January 31, 2020. -/
def dJan31 : Date := ⟨2020, 1, 31⟩

/-- March 31, 2020. -/
def dMar31 : Date := ⟨2020, 3, 31⟩

/-- January 1, 2021 (a validation range with no data). -/
def dNext1 : Date := ⟨2021, 1, 1⟩

/-- January 31, 2021. -/
def dNext31 : Date := ⟨2021, 1, 31⟩

/-- A sample training state with nothing processed. -/
def tsFresh : TrainingState := freshTrainingState dJan1 dJan31 dNext1 dNext31

/-- A checkpoint directory whose persisted training state records month
(2020, 1) as processed. -/
def cmJanDone : CMState :=
  ⟨[], [], some { tsFresh with processed_files := [⟨2, 2020, 1, 10⟩], total_files := 1 }, 1⟩

/-- A run environment where everything succeeds. -/
def envOk : RunEnv :=
  ⟨fun _ => true, fun _ => 10, fun _ => true, fun _ _ => 5, fun _ => 0,
   fun _ => SaveOutcome.allOk, fun _ => false, true, ⟨1, 1, 1, 1⟩, "final"⟩

/-- A run environment where file `1` fails to load and everything else
succeeds. -/
def envSkip1 : RunEnv :=
  { envOk with loadOk := fun p => decide ¬p.path = 1 }

/-- A run environment where every checkpoint save fails at the `model.save()`
step. -/
def envSaveFails : RunEnv :=
  { envOk with saveOutcome := fun _ => ⟨true, false, true, true⟩ }

/-- A versioning state tracking one version `v2`, with `v1` recorded as the
previous version. -/
def mvTwo : MVState :=
  ⟨["m"], 10, [("v2", ⟨["m", "v2"], ("a", "b"), ⟨1, 1, 1, 1⟩, 1⟩)],
   [("v2", ⟨1, 1, 1, 1⟩)], some "v2", some "v1", [["m"], ["m", "v2"]], 2⟩

/-! ## Theorems -/

/-! ### Month-iteration lemmas for the loader -/

theorem ble_trans {a b c : Date} (h1 : Date.ble a b = true) (h2 : Date.ble b c = true) :
    Date.ble a c = true := by
  rw [dateBle_iff] at h1 h2 ⊢
  omega

theorem firstOfIdx_ble_mono {i j : Nat} (h : i ≤ j) :
    Date.ble (firstOfIdx i) (firstOfIdx j) = true := by
  rw [dateBle_iff]
  simp only [firstOfIdx]
  omega

theorem firstOfIdx_ble_bound {e : Date} {j : Nat}
    (h : Date.ble (firstOfIdx j) e = true) : j < e.year * 12 + e.month := by
  rw [dateBle_iff] at h
  simp only [firstOfIdx] at h
  omega

theorem idxKey_eq_iff {j y m : Nat} :
    idxKey j = (y, m) ↔ (j = y * 12 + (m - 1) ∧ 1 ≤ m ∧ m ≤ 12) := by
  simp only [idxKey, Prod.mk.injEq]
  omega

theorem idxKey_keyLt {i j : Nat} (h : i < j) : keyLt (idxKey i) (idxKey j) = true := by
  rw [keyLt_iff]
  simp only [idxKey]
  omega

theorem collectMonths_shape {e : Date} :
    ∀ {fuel idx : Nat} {k : MonthKey}, k ∈ collectMonths e fuel idx →
      ∃ j, idx ≤ j ∧ k = idxKey j ∧ Date.ble (firstOfIdx j) e = true := by
  intro fuel
  induction fuel with
  | zero => intro idx k h; simp [collectMonths] at h
  | succ n ih =>
    intro idx k h
    rw [collectMonths] at h
    by_cases hc : Date.ble (firstOfIdx idx) e = true
    · rw [if_pos hc] at h
      rcases List.mem_cons.mp h with h | h
      · exact ⟨idx, Nat.le_refl idx, h, hc⟩
      · obtain ⟨j, hj, hk, hcj⟩ := ih h
        exact ⟨j, Nat.le_of_succ_le hj, hk, hcj⟩
    · rw [if_neg hc] at h
      simp at h

theorem collectMonths_mem {e : Date} :
    ∀ {fuel idx : Nat}, e.year * 12 + e.month ≤ idx + fuel →
      ∀ {k : MonthKey}, (k ∈ collectMonths e fuel idx ↔
        ∃ j, idx ≤ j ∧ idxKey j = k ∧ Date.ble (firstOfIdx j) e = true) := by
  intro fuel
  induction fuel with
  | zero =>
    intro idx hb k
    simp only [collectMonths, List.not_mem_nil, false_iff]
    rintro ⟨j, hj, -, hc⟩
    have := firstOfIdx_ble_bound hc
    omega
  | succ n ih =>
    intro idx hb k
    rw [collectMonths]
    by_cases hc : Date.ble (firstOfIdx idx) e = true
    · rw [if_pos hc, List.mem_cons, ih (by omega)]
      constructor
      · rintro (rfl | ⟨j, hj, hk, hcj⟩)
        · exact ⟨idx, Nat.le_refl idx, rfl, hc⟩
        · exact ⟨j, by omega, hk, hcj⟩
      · rintro ⟨j, hj, hk, hcj⟩
        rcases Nat.eq_or_lt_of_le hj with rfl | hlt
        · exact Or.inl hk.symm
        · exact Or.inr ⟨j, hlt, hk, hcj⟩
    · rw [if_neg hc]
      simp only [List.not_mem_nil, false_iff]
      rintro ⟨j, hj, -, hcj⟩
      exact hc (ble_trans (firstOfIdx_ble_mono hj) hcj)

theorem collectMonths_pairwise (e : Date) :
    ∀ fuel idx, List.Pairwise (fun a b => keyLt a b = true) (collectMonths e fuel idx) := by
  intro fuel
  induction fuel with
  | zero => intro idx; simp [collectMonths]
  | succ n ih =>
    intro idx
    rw [collectMonths]
    by_cases hc : Date.ble (firstOfIdx idx) e = true
    · rw [if_pos hc]
      refine List.Pairwise.cons ?_ (ih (idx + 1))
      intro k hk
      obtain ⟨j, hj, rfl, -⟩ := collectMonths_shape hk
      exact idxKey_keyLt (by omega)
    · rw [if_neg hc]
      exact List.Pairwise.nil

theorem monthFuel_sufficient (s e : Date) :
    e.year * 12 + e.month ≤ monthIdx s + monthFuel s e := by
  unfold monthFuel
  omega

/-- Membership characterisation of `get_parquet_files`: the files returned
are exactly those of the calendar months between the month of `start_date`
and the month of `end_date` inclusive. -/
theorem get_parquet_files_mem (fs : FS) {s e : Date} (hs : s.Valid) (he : e.Valid)
    (p : PEntry) :
    p ∈ get_parquet_files fs s e ↔
      (p.path ∈ fs p.year p.month ∧ 1 ≤ p.month ∧ p.month ≤ 12
        ∧ keyLe (s.year, s.month) (p.year, p.month) = true
        ∧ keyLe (p.year, p.month) (e.year, e.month) = true) := by
  obtain ⟨hs1, hs2, -⟩ := hs
  obtain ⟨he1, he2, he3⟩ := he
  unfold get_parquet_files
  rw [List.mem_flatMap]
  constructor
  · rintro ⟨k, hk, hp⟩
    simp only [List.mem_map] at hp
    obtain ⟨f, hf, rfl⟩ := hp
    rw [collectMonths_mem (monthFuel_sufficient s e)] at hk
    obtain ⟨j, hj, hid, hc⟩ := hk
    have hidx : j = k.1 * 12 + (k.2 - 1) ∧ 1 ≤ k.2 ∧ k.2 ≤ 12 := by
      rw [← idxKey_eq_iff]
      exact hid.trans rfl
    have hf' : f ∈ fs k.1 k.2 := (List.perm_insertionSort _ _).mem_iff.mp hf
    refine ⟨hf', hidx.2.1, hidx.2.2, ?_, ?_⟩
    · rw [keyLe_iff]
      simp only [monthIdx] at hj
      dsimp only
      omega
    · rw [dateBle_iff] at hc
      simp only [firstOfIdx] at hc
      rw [keyLe_iff]
      dsimp only
      omega
  · rintro ⟨hfs, hm1, hm12, hle1, hle2⟩
    refine ⟨(p.year, p.month), ?_, ?_⟩
    · rw [collectMonths_mem (monthFuel_sufficient s e)]
      refine ⟨p.year * 12 + (p.month - 1), ?_, ?_, ?_⟩
      · rw [keyLe_iff] at hle1
        simp only [monthIdx]
        omega
      · exact idxKey_eq_iff.mpr ⟨rfl, hm1, hm12⟩
      · rw [dateBle_iff]
        simp only [firstOfIdx]
        rw [keyLe_iff] at hle2
        omega
    · simp only [List.mem_map]
      refine ⟨p.path, (List.perm_insertionSort _ _).mem_iff.mpr hfs, ?_⟩
      cases p
      rfl

/-- Ordering of `get_parquet_files`: strictly increasing `(year, month)`
across months, names sorted within one month. -/
theorem get_parquet_files_pairwise (fs : FS) (s e : Date) :
    List.Pairwise (fun a b : PEntry =>
      keyLt (a.year, a.month) (b.year, b.month) = true
        ∨ ((a.year, a.month) = (b.year, b.month) ∧ a.path ≤ b.path))
      (get_parquet_files fs s e) := by
  unfold get_parquet_files
  rw [List.flatMap_def, List.pairwise_flatten]
  constructor
  · intro l hl
    simp only [List.mem_map] at hl
    obtain ⟨k, -, rfl⟩ := hl
    rw [List.pairwise_map]
    refine (List.sorted_insertionSort (· ≤ ·) (fs k.1 k.2)).imp ?_
    intro a b hab
    exact Or.inr ⟨rfl, hab⟩
  · rw [List.pairwise_map]
    refine (collectMonths_pairwise e (monthFuel s e) (monthIdx s)).imp ?_
    intro k k' hkk x hx y hy
    simp only [List.mem_map] at hx hy
    obtain ⟨f, -, rfl⟩ := hx
    obtain ⟨g, -, rfl⟩ := hy
    exact Or.inl hkk

theorem keyLe_refl (k : MonthKey) : keyLe k k = true := by
  rw [keyLe_iff]
  omega

theorem keyLt_of_not_keyLe {a b : MonthKey} (h : ¬keyLe a b = true) :
    keyLt b a = true := by
  rw [keyLe_iff] at h
  rw [keyLt_iff]
  omega

/-- C4: for valid `start_date ≤ end_date`, `get_parquet_files` returns
exactly the files of the calendar months intersecting the range (a file of
month `(y, m)` is returned iff it is present in the data root and
`(start.year, start.month) ≤ (y, m) ≤ (end.year, end.month)`), ordered
chronologically: `(year, month)` strictly increasing across months and file
names sorted within one month. -/
theorem c4_chronological_discovery (fs : FS) (s e : Date)
    (hs : s.Valid) (he : e.Valid) (_hse : Date.ble s e = true) :
    (∀ p : PEntry, p ∈ get_parquet_files fs s e ↔
        (p.path ∈ fs p.year p.month ∧ 1 ≤ p.month ∧ p.month ≤ 12
          ∧ keyLe (s.year, s.month) (p.year, p.month) = true
          ∧ keyLe (p.year, p.month) (e.year, e.month) = true))
      ∧ List.Pairwise (fun a b : PEntry =>
          keyLt (a.year, a.month) (b.year, b.month) = true
            ∨ ((a.year, a.month) = (b.year, b.month) ∧ a.path ≤ b.path))
          (get_parquet_files fs s e) :=
  ⟨fun p => get_parquet_files_mem fs hs he p, get_parquet_files_pairwise fs s e⟩

/-- C4 witness: the three-month range 2020-01-01..2020-03-31 over a data root
with one file per month yields exactly three entries in month order, and the
membership characterisation instantiates at the February entry. -/
theorem c4_chronological_witness :
    get_parquet_files fsQ1 dJan1 dMar31 = [⟨10, 2020, 1⟩, ⟨20, 2020, 2⟩, ⟨30, 2020, 3⟩]
      ∧ ((⟨20, 2020, 2⟩ : PEntry) ∈ get_parquet_files fsQ1 dJan1 dMar31 ↔
          (20 ∈ fsQ1 2020 2 ∧ 1 ≤ 2 ∧ 2 ≤ 12
            ∧ keyLe (2020, 1) (2020, 2) = true
            ∧ keyLe (2020, 2) (2020, 3) = true)) :=
  ⟨by decide,
   (c4_chronological_discovery fsQ1 dJan1 dMar31 (by decide) (by decide) (by decide)).1
     ⟨20, 2020, 2⟩⟩

/-- C2: `get_remaining_files` returns exactly the discovered files whose
`(year, month)` is not in the persisted training state's processed list;
with no checkpoint manager or no persisted training state every file is
remaining; and whenever every file up to and including partition `P` is
recorded as processed, `P` is not remaining and every remaining file is
strictly after `P` in chronological order. -/
theorem c2_remaining_filter (fs : FS) (cm : CMState) (s e : Date) :
    (∀ p : PEntry, p ∈ get_remaining_files fs (some cm) s e ↔
        (p ∈ get_parquet_files fs s e ∧ (p.year, p.month) ∉ processedOf cm))
      ∧ get_remaining_files fs none s e = get_parquet_files fs s e
      ∧ (load_training_state cm = none →
          get_remaining_files fs (some cm) s e = get_parquet_files fs s e)
      ∧ ∀ P : PEntry, P ∈ get_parquet_files fs s e →
          (∀ q ∈ get_parquet_files fs s e,
            keyLe (q.year, q.month) (P.year, P.month) = true →
              (q.year, q.month) ∈ processedOf cm) →
          (P ∉ get_remaining_files fs (some cm) s e
            ∧ ∀ q ∈ get_remaining_files fs (some cm) s e,
                keyLt (P.year, P.month) (q.year, q.month) = true) := by
  have h1 : ∀ p : PEntry, p ∈ get_remaining_files fs (some cm) s e ↔
      (p ∈ get_parquet_files fs s e ∧ (p.year, p.month) ∉ processedOf cm) := by
    intro p
    simp [get_remaining_files, List.mem_filter]
  refine ⟨h1, rfl, ?_, ?_⟩
  · intro h
    simp [get_remaining_files, processedOf, h]
  · intro P hP hcov
    constructor
    · intro hmem
      exact ((h1 P).mp hmem).2 (hcov P hP (keyLe_refl _))
    · intro q hq
      obtain ⟨hqall, hqnp⟩ := (h1 q).mp hq
      exact keyLt_of_not_keyLe fun hle => hqnp (hcov q hqall hle)

/-- C2 witness: over the three-month root with month (2020, 1) recorded as
processed, the January file is not remaining and every remaining file is
strictly after January. -/
theorem c2_remaining_witness :
    (⟨10, 2020, 1⟩ : PEntry) ∉ get_remaining_files fsQ1 (some cmJanDone) dJan1 dMar31 :=
  ((c2_remaining_filter fsQ1 cmJanDone dJan1 dMar31).2.2.2 ⟨10, 2020, 1⟩
    (by decide) (by decide)).1

/-- C7: for all current and previous metric dictionaries,
`calculate_performance_improvement` returns
`max 0 ((previous_mae - current_mae) / previous_mae)` — a never-negative
value (rational division by zero is zero, matching the code's explicit
`previous_mae == 0` branch) — and in particular it returns `0` when the
current MAE is `2` and the previous MAE is `1`, and `0` when the previous MAE
is `0`. -/
theorem c7_improvement_clamped :
    (∀ current previous : Metrics,
        calculate_performance_improvement current previous
            = max 0 ((previous.mae - current.mae) / previous.mae)
          ∧ 0 ≤ calculate_performance_improvement current previous)
      ∧ calculate_performance_improvement ⟨2, 2, 1, 1/2⟩ ⟨1, 1, 1, 1/2⟩ = 0
      ∧ calculate_performance_improvement ⟨2, 2, 1, 1/2⟩ ⟨0, 0, 1, 1/2⟩ = 0 := by
  refine ⟨fun current previous => ⟨?_, ?_⟩, by norm_num [calculate_performance_improvement],
    by norm_num [calculate_performance_improvement]⟩
  · unfold calculate_performance_improvement
    by_cases h : previous.mae = 0
    · simp [h]
    · simp [h]
  · unfold calculate_performance_improvement
    by_cases h : previous.mae = 0
    · simp [h]
    · simp [h, le_max_left]

/-- C9 counterexample: the result dictionary returned by
`rollback_to_previous` has no key `rolled_back` (the code's key is
`rollback`), so the claim that the result contains `rolled_back: true` is
false at this concrete state. -/
theorem c9_rollback_counterexample :
    List.lookup "rolled_back" (rollback_to_previous mvTwo "v2").2 = none := by
  rfl

/-- C9 amended: when a previous version exists, `rollback_to_previous`
removes the failed version's in-memory record, restores the current-version
pointer to the previous version, and returns a result containing
`success: false`, `rollback: true` (the key is `rollback`, not
`rolled_back`), and the restored current version; it leaves the disk and the
performance history unchanged — in particular the failed version's
already-written storage directory is not deleted. -/
theorem c9_rollback_restores_previous (st : MVState) (failed_version_id : String)
    (h : st.previous_version.isSome) :
    (∀ x ∈ (rollback_to_previous st failed_version_id).1.model_versions,
        x.1 ≠ failed_version_id)
      ∧ (rollback_to_previous st failed_version_id).1.current_version
          = st.previous_version
      ∧ (rollback_to_previous st failed_version_id).1.disk = st.disk
      ∧ (rollback_to_previous st failed_version_id).1.performance_history
          = st.performance_history
      ∧ List.lookup "success" (rollback_to_previous st failed_version_id).2
          = some (.bool false)
      ∧ List.lookup "rollback" (rollback_to_previous st failed_version_id).2
          = some (.bool true)
      ∧ List.lookup "current_version" (rollback_to_previous st failed_version_id).2
          = some (optStr st.previous_version) := by
  obtain ⟨p, hp⟩ := Option.isSome_iff_exists.mp h
  refine ⟨?_, ?_, ?_, ?_, ?_, ?_, ?_⟩ <;>
    simp [rollback_to_previous, dictErase, hp, List.lookup, List.mem_filter]

/-- C9 witness: the amended rollback theorem applied at the concrete state
`mvTwo`. -/
theorem c9_rollback_witness :
    mvTwo.previous_version.isSome
      ∧ (rollback_to_previous mvTwo "v2").1.current_version = mvTwo.previous_version := by
  exact ⟨by decide, (c9_rollback_restores_previous mvTwo "v2" (by decide)).2.1⟩

/-- C6: when the remaining-file list for the requested range is empty,
`train_with_checkpoints` returns immediately with status `completed` and the
message `All files already processed`, leaves the checkpoint directory
untouched, and performs no side effects at all (empty trace): zero fit
operations and zero checkpoint writes. -/
theorem c6_noop_when_all_processed (env : RunEnv) (fs : FS) (cm : CMState)
    (s e vs ve : Date) (checkpoint_dir : String)
    (h : get_remaining_files fs (some cm) s e = []) :
    train_with_checkpoints env fs cm s e vs ve checkpoint_dir =
      ({ status := "completed", message := "All files already processed",
         checkpoint_dir := checkpoint_dir }, cm, []) := by
  unfold train_with_checkpoints
  simp [h]

/-! ### Checkpoint-manager lemmas -/

theorem save_checkpoint_allOk (cm : CMState) (y m mo st : Nat) (ts : TrainingState) :
    save_checkpoint cm y m mo st ts SaveOutcome.allOk =
      ({ descriptors := [⟨(y, m), cm.clock, ⟨y, m, (y, m), st, ts⟩⟩],
         models := writeModel cm.models (y, m) mo,
         trainingState := some ts,
         clock := cm.clock + 1 }, true,
       [.cleanupDescriptors, .modelSave (y, m), .descriptorWrite (y, m),
        .trainingStateWrite]) := rfl

theorem save_checkpoint_bool (cm : CMState) (y m mo st : Nat) (ts : TrainingState)
    (o : SaveOutcome) :
    (save_checkpoint cm y m mo st ts o).2.1 = (o.modelOk && o.descOk) := by
  rcases o with ⟨c, mB, dB, sB⟩
  cases c <;> cases mB <;> cases dB <;> cases sB <;> rfl

theorem ifSingleton_sublist {α : Type} (b : Bool) (x : α) :
    (if b then [x] else []).Sublist [x] := by
  cases b <;> simp

theorem save_checkpoint_trace (cm : CMState) (y m mo st : Nat) (ts : TrainingState)
    (o : SaveOutcome) :
    (save_checkpoint cm y m mo st ts o).2.2 =
      (if o.cleanupOk then [Ev.cleanupDescriptors] else [])
        ++ (if o.modelOk then
              Ev.modelSave (y, m)
                :: (if o.descOk then
                      Ev.descriptorWrite (y, m)
                        :: (if o.stateOk then [Ev.trainingStateWrite] else [])
                    else [])
            else []) := by
  rcases o with ⟨c, mB, dB, sB⟩
  cases c <;> cases mB <;> cases dB <;> cases sB <;> rfl

theorem save_checkpoint_trace_sublist (cm : CMState) (y m mo st : Nat)
    (ts : TrainingState) (o : SaveOutcome) :
    (save_checkpoint cm y m mo st ts o).2.2.Sublist
      [Ev.cleanupDescriptors, Ev.modelSave (y, m), Ev.descriptorWrite (y, m),
       Ev.trainingStateWrite] := by
  rw [save_checkpoint_trace]
  refine List.Sublist.append (ifSingleton_sublist _ _) ?_
  by_cases hm : o.modelOk
  · rw [if_pos hm]
    by_cases hd : o.descOk
    · rw [if_pos hd]
      exact List.Sublist.cons₂ _ (List.Sublist.cons₂ _ (ifSingleton_sublist _ _))
    · rw [if_neg hd]
      exact List.Sublist.cons₂ _ (List.nil_sublist _)
  · rw [if_neg hm]
    exact List.nil_sublist _

theorem save_checkpoint_desc_after_model (cm : CMState) (y m mo st : Nat)
    (ts : TrainingState) (o : SaveOutcome) :
    Ev.descriptorWrite (y, m) ∈ (save_checkpoint cm y m mo st ts o).2.2 →
      ∃ t1 t2, (save_checkpoint cm y m mo st ts o).2.2 = t1 ++ Ev.modelSave (y, m) :: t2
        ∧ Ev.descriptorWrite (y, m) ∈ t2 := by
  rcases o with ⟨c, mB, dB, sB⟩
  cases c <;> cases mB <;> cases dB <;> cases sB <;> intro h <;>
    first
      | exact ⟨[], [Ev.descriptorWrite (y, m)], rfl, by simp⟩
      | exact ⟨[], [Ev.descriptorWrite (y, m), Ev.trainingStateWrite], rfl, by simp⟩
      | exact ⟨[Ev.cleanupDescriptors], [Ev.descriptorWrite (y, m)], rfl, by simp⟩
      | exact ⟨[Ev.cleanupDescriptors],
          [Ev.descriptorWrite (y, m), Ev.trainingStateWrite], rfl, by simp⟩
      | (exfalso; revert h; simp [save_checkpoint])

/-- C10: a `save_checkpoint` call that fails after its initial cleanup step
(at the model save or at the descriptor write) returns `false` but has
already deleted the previously live descriptor, so `get_last_checkpoint`
subsequently returns nothing even though an earlier save succeeded; only the
separately persisted training state of the last successful save survives. -/
theorem c10_save_not_atomic (cm : CMState) (y1 m1 mo1 st1 : Nat) (ts1 : TrainingState)
    (y2 m2 mo2 st2 : Nat) (ts2 : TrainingState) (o2 : SaveOutcome)
    (hc : o2.cleanupOk = true) (hf : o2.modelOk = false ∨ o2.descOk = false) :
    (save_checkpoint cm y1 m1 mo1 st1 ts1 SaveOutcome.allOk).2.1 = true
      ∧ get_last_checkpoint (save_checkpoint cm y1 m1 mo1 st1 ts1 SaveOutcome.allOk).1 ≠ none
      ∧ (save_checkpoint (save_checkpoint cm y1 m1 mo1 st1 ts1 SaveOutcome.allOk).1
          y2 m2 mo2 st2 ts2 o2).2.1 = false
      ∧ (save_checkpoint (save_checkpoint cm y1 m1 mo1 st1 ts1 SaveOutcome.allOk).1
          y2 m2 mo2 st2 ts2 o2).1.descriptors = []
      ∧ get_last_checkpoint (save_checkpoint (save_checkpoint cm y1 m1 mo1 st1 ts1
          SaveOutcome.allOk).1 y2 m2 mo2 st2 ts2 o2).1 = none
      ∧ (save_checkpoint (save_checkpoint cm y1 m1 mo1 st1 ts1 SaveOutcome.allOk).1
          y2 m2 mo2 st2 ts2 o2).1.trainingState = some ts1 := by
  rcases o2 with ⟨c, mB, dB, sB⟩
  cases c
  · cases hc
  · rw [save_checkpoint_allOk]
    cases mB <;> cases dB <;> cases sB <;>
      simp_all [save_checkpoint, get_last_checkpoint, latestDescriptor]

/-- C10 witness: the non-atomicity theorem applied at a concrete state: after
one fully successful save, a second save whose `model.save()` raises leaves
no retrievable checkpoint behind while still holding the first save's
training state. -/
theorem c10_save_not_atomic_witness :
    (save_checkpoint (save_checkpoint CMState.empty 2020 1 7 0 tsFresh
        SaveOutcome.allOk).1 2020 2 8 0 tsFresh ⟨true, false, true, true⟩).2.1 = false
      ∧ get_last_checkpoint (save_checkpoint (save_checkpoint CMState.empty 2020 1 7 0
          tsFresh SaveOutcome.allOk).1 2020 2 8 0 tsFresh ⟨true, false, true, true⟩).1
          = none
      ∧ (save_checkpoint (save_checkpoint CMState.empty 2020 1 7 0 tsFresh
          SaveOutcome.allOk).1 2020 2 8 0 tsFresh ⟨true, false, true, true⟩).1.trainingState
          = some tsFresh := by
  have h := c10_save_not_atomic CMState.empty 2020 1 7 0 tsFresh 2020 2 8 0 tsFresh
    ⟨true, false, true, true⟩ rfl (Or.inl rfl)
  exact ⟨h.2.2.1, h.2.2.2.2.1, h.2.2.2.2.2⟩

/-- C6 witness: with the `2020/01` data root and a checkpoint state that
already records month (2020, 1) as processed, the remaining list is empty and
the orchestrator returns the completed/no-op result at once. -/
theorem c6_noop_witness :
    get_remaining_files fsJan (some cmJanDone) dJan1 dJan31 = []
      ∧ train_with_checkpoints envOk fsJan cmJanDone dJan1 dJan31 dNext1 dNext31 "ckpt" =
          ({ status := "completed", message := "All files already processed",
             checkpoint_dir := "ckpt" }, cmJanDone, []) := by
  exact ⟨by decide, c6_noop_when_all_processed envOk fsJan cmJanDone dJan1 dJan31
    dNext1 dNext31 "ckpt" (by decide)⟩

theorem lookupKey_writeModel (L : List (MonthKey × Nat)) (k : MonthKey) (v : Nat) :
    lookupKey k (writeModel L k v) = some v := by
  induction L with
  | nil => simp [writeModel, lookupKey]
  | cons a L ih =>
    by_cases hak : a.1 = k
    · simp [writeModel, List.any_cons, hak, lookupKey]
    · by_cases hL : (L.any fun x => decide (x.1 = k)) = true
      · have hcond : ((a :: L).any fun x => decide (x.1 = k)) = true := by
          simp [List.any_cons, hL]
        rw [writeModel, if_pos hcond, List.map_cons, if_neg hak]
        rw [writeModel, if_pos hL] at ih
        simpa [lookupKey, hak] using ih
      · have hcond : ¬((a :: L).any fun x => decide (x.1 = k)) = true := by
          simp [List.any_cons, hak, hL]
        rw [writeModel, if_neg hcond, List.cons_append]
        rw [writeModel, if_neg hL] at ih
        simpa [lookupKey, hak] using ih

theorem runSaves_allOk_shape (l : List (SaveReq × SaveOutcome)) :
    ∀ (r : SaveReq), (∀ x ∈ l, x.2 = SaveOutcome.allOk) →
      l.getLast? = some (r, SaveOutcome.allOk) → ∀ cm : CMState,
      ∃ t, (runSaves cm l).descriptors = [reqDescriptor r t]
        ∧ lookupKey (r.year, r.month) (runSaves cm l).models = some r.model
        ∧ (runSaves cm l).trainingState = some r.training_state := by
  induction l with
  | nil => intro r _ hlast; cases hlast
  | cons x rest ih =>
    intro r hok hlast cm
    rcases x with ⟨r0, o0⟩
    have ho : o0 = SaveOutcome.allOk := hok (r0, o0) (List.mem_cons_self _ _)
    subst ho
    rcases rest with _ | ⟨y, rest'⟩
    · have hr : r0 = r := by
        simp only [List.getLast?_singleton, Option.some.injEq, Prod.mk.injEq] at hlast
        exact hlast.1
      subst hr
      refine ⟨cm.clock, ?_, ?_, ?_⟩
      · simp [runSaves, save_checkpoint_allOk, reqDescriptor]
      · simp [runSaves, save_checkpoint_allOk, lookupKey_writeModel]
      · simp [runSaves, save_checkpoint_allOk]
    · have hlast' : (y :: rest').getLast? = some (r, SaveOutcome.allOk) := by
        rw [← hlast]
        exact List.getLast?_cons_cons.symm
      have hok' : ∀ x ∈ y :: rest', x.2 = SaveOutcome.allOk :=
        fun x hx => hok x (List.mem_cons_of_mem _ hx)
      exact ih r hok' hlast'
        (save_checkpoint cm r0.year r0.month r0.model r0.data_stats r0.training_state
          SaveOutcome.allOk).1

/-- C1 amended: for every nonempty sequence of `save_checkpoint` calls in
which every internal step succeeds — so that all of them return true — the
descriptor directory holds exactly one descriptor afterwards,
`get_last_checkpoint` returns the record of the most recently saved
`(year, month)` together with its model snapshot, the persisted training
state is the last save's, and within each save the side effects occur in the
order: delete previous descriptors, persist the model snapshot, write the
descriptor, persist the training state — a descriptor write always coming
after its model save.  (The original claim, quantified only over saves that
return true, fails: a save whose internal descriptor-cleanup step raises
still returns true, see the counterexample.) -/
theorem c1_single_live_checkpoint (cm : CMState) (l : List (SaveReq × SaveOutcome))
    (r : SaveReq) (hok : ∀ x ∈ l, x.2 = SaveOutcome.allOk)
    (hlast : l.getLast? = some (r, SaveOutcome.allOk)) :
    (runSaves cm l).descriptors.length = 1
      ∧ get_last_checkpoint (runSaves cm l)
          = some (⟨r.year, r.month, (r.year, r.month), r.data_stats, r.training_state⟩,
                  some r.model)
      ∧ load_training_state (runSaves cm l) = some r.training_state
      ∧ (∀ (cm' : CMState) (y m mo st : Nat) (ts : TrainingState) (o : SaveOutcome),
          (save_checkpoint cm' y m mo st ts o).2.2.Sublist
              [Ev.cleanupDescriptors, Ev.modelSave (y, m), Ev.descriptorWrite (y, m),
               Ev.trainingStateWrite]
            ∧ (Ev.descriptorWrite (y, m) ∈ (save_checkpoint cm' y m mo st ts o).2.2 →
                ∃ t1 t2, (save_checkpoint cm' y m mo st ts o).2.2
                    = t1 ++ Ev.modelSave (y, m) :: t2
                  ∧ Ev.descriptorWrite (y, m) ∈ t2)) := by
  obtain ⟨t, hdesc, hmod, hts⟩ := runSaves_allOk_shape l r hok hlast cm
  refine ⟨?_, ?_, ?_, ?_⟩
  · rw [hdesc]
    rfl
  · rw [get_last_checkpoint, hdesc]
    simp [latestDescriptor, reqDescriptor, hmod]
  · rw [load_training_state, hts]
  · intro cm' y m mo st ts o
    exact ⟨save_checkpoint_trace_sublist cm' y m mo st ts o,
      save_checkpoint_desc_after_model cm' y m mo st ts o⟩

/-- C1 counterexample: a sequence of two `save_checkpoint` calls that both
return true after which the descriptor directory holds two descriptors: the
second save's internal cleanup step fails, `_cleanup_previous_checkpoint`
swallows the exception, and the save still completes and returns true — so
"all calls returned true" does not give "exactly one descriptor". -/
theorem c1_counterexample :
    (save_checkpoint CMState.empty 2020 1 7 0 tsFresh SaveOutcome.allOk).2.1 = true
      ∧ (save_checkpoint (save_checkpoint CMState.empty 2020 1 7 0 tsFresh
          SaveOutcome.allOk).1 2020 2 8 0 tsFresh ⟨false, true, true, true⟩).2.1 = true
      ∧ (runSaves CMState.empty
          [(⟨2020, 1, 7, 0, tsFresh⟩, SaveOutcome.allOk),
           (⟨2020, 2, 8, 0, tsFresh⟩, ⟨false, true, true, true⟩)]).descriptors.length
          = 2 := by
  decide

/-- C1 witness: the amended theorem applied to one fully successful save from
an empty checkpoint directory. -/
theorem c1_single_live_checkpoint_witness :
    (runSaves CMState.empty [(⟨2020, 1, 7, 0, tsFresh⟩, SaveOutcome.allOk)]).descriptors.length
        = 1
      ∧ get_last_checkpoint
          (runSaves CMState.empty [(⟨2020, 1, 7, 0, tsFresh⟩, SaveOutcome.allOk)])
          = some (⟨2020, 1, (2020, 1), 0, tsFresh⟩, some 7) := by
  have h := c1_single_live_checkpoint CMState.empty
    [(⟨2020, 1, 7, 0, tsFresh⟩, SaveOutcome.allOk)] ⟨2020, 1, 7, 0, tsFresh⟩
    (by decide) (by decide)
  exact ⟨h.1, h.2.1⟩

/-- C3 counterexample: a `save_checkpoint` call in which the training-state
write fails — an I/O failure, which `_save_training_state` logs and swallows
— still returns true, so the claim that save returns false on *any* failure
is false at this concrete input. -/
theorem c3_swallowed_failure_counterexample :
    (save_checkpoint CMState.empty 2020 1 7 0 tsFresh ⟨true, true, true, false⟩).2.1
      = true := by
  decide

/-- C3 amended: `save_checkpoint` is a total function (it never raises past
its boundary) that returns false exactly when the model-save or the
descriptor-write step fails; failures of the preliminary descriptor cleanup
and of the training-state write are logged and swallowed, with true still
returned.  Whenever a save returns false inside the partition loop of
`train_with_checkpoints`, the loop stops immediately — running the loop on
the failing partition followed by any tail equals running it on the failing
partition alone, and it ends in a `failed` exit — and the orchestrator then
returns a result with status `error` whose message names the failing
`(year, month)` partition. -/
theorem c3_save_failure_aborts :
    (∀ (cm : CMState) (y m mo st : Nat) (ts : TrainingState) (o : SaveOutcome),
        (save_checkpoint cm y m mo st ts o).2.1 = (o.modelOk && o.descOk))
      ∧ (∀ (env : RunEnv) (cm : CMState) (pred : Option Nat) (ts : TrainingState)
          (tr : List Ev) (p : PEntry) (rest : List PEntry),
          env.loadOk p = true → env.convertOk p = true →
          ((env.saveOutcome p).modelOk && (env.saveOutcome p).descOk) = false →
            processLoop env cm pred ts tr (p :: rest) = processLoop env cm pred ts tr [p]
              ∧ ∃ cm' tr', processLoop env cm pred ts tr (p :: rest)
                  = .failed p.year p.month cm' tr')
      ∧ (∀ (env : RunEnv) (fs : FS) (cm : CMState) (s e vs ve : Date) (cd : String)
          (y m : Nat) (cm' : CMState) (tr : List Ev),
          processLoop env cm (adoptedPredictor cm)
              { adoptedState cm s e vs ve with
                  total_files := (get_remaining_files fs (some cm) s e).length } []
              (get_remaining_files fs (some cm) s e) = .failed y m cm' tr →
          train_with_checkpoints env fs cm s e vs ve cd =
            ({ status := "error",
               message := "Failed to save checkpoint for " ++ pad4 y ++ "-" ++ pad2 m,
               checkpoint_dir := cd }, cm', tr)) := by
  refine ⟨save_checkpoint_bool, ?_, ?_⟩
  · intro env cm pred ts tr p rest hl hcv hsf
    have hb : ∀ ts' : TrainingState,
        (save_checkpoint cm p.year p.month (env.fit pred p) (env.stats p) ts'
          (env.saveOutcome p)).2.1 = false := by
      intro ts'
      rw [save_checkpoint_bool]
      exact hsf
    constructor
    · simp [processLoop, hl, hcv, hb]
    · simp only [processLoop, hl, hcv, hb]
      simp
  · intro env fs cm s e vs ve cd y m cm' tr h
    by_cases he : (get_remaining_files fs (some cm) s e).isEmpty
    · exfalso
      have hz : get_remaining_files fs (some cm) s e = [] := by
        simpa [List.isEmpty_iff] using he
      rw [hz] at h
      simp [processLoop] at h
    · unfold train_with_checkpoints
      rw [if_neg (by simp [he])]
      rw [h]

/-- C3 witness: the amended theorem applied to a run environment whose
checkpoint saves fail at the `model.save()` step: the loop on a failing
partition followed by another partition equals the loop on the failing
partition alone, and the full orchestrator run ends with status `error`
naming partition 2020-01. -/
theorem c3_save_failure_witness :
    processLoop envSaveFails CMState.empty none tsFresh []
        [⟨1, 2020, 1⟩, ⟨2, 2020, 1⟩]
        = processLoop envSaveFails CMState.empty none tsFresh [] [⟨1, 2020, 1⟩]
      ∧ train_with_checkpoints envSaveFails fsJan CMState.empty dJan1 dJan31 dNext1
          dNext31 "c"
          = ({ status := "error", message := "Failed to save checkpoint for 2020-01",
               checkpoint_dir := "c" }, CMState.empty,
             [Ev.fit 1 (2020, 1), Ev.cleanupDescriptors]) := by
  refine ⟨((c3_save_failure_aborts.2.1 envSaveFails CMState.empty none tsFresh []
    ⟨1, 2020, 1⟩ [⟨2, 2020, 1⟩]) rfl rfl rfl).1, ?_⟩
  have h := c3_save_failure_aborts.2.2 envSaveFails fsJan CMState.empty dJan1 dJan31
    dNext1 dNext31 "c" 2020 1 CMState.empty
    [Ev.fit 1 (2020, 1), Ev.cleanupDescriptors] (by decide)
  rw [h]
  rfl

/-- C5 counterexample: partition file 1 of month (2020, 1) fails to load and
is skipped, but file 2 of the same month succeeds and is checkpointed, so a
later run over the same range finds month (2020, 1) processed and the failed
file is *not* returned as remaining — refuting the claim's "still returned as
remaining by a later run". -/
theorem c5_skip_counterexample :
    envSkip1.loadOk ⟨1, 2020, 1⟩ = false
      ∧ (⟨1, 2020, 1⟩ : PEntry) ∈ get_remaining_files fsJan (some CMState.empty) dJan1 dJan31
      ∧ get_remaining_files fsJan
          (some (train_with_checkpoints envSkip1 fsJan CMState.empty dJan1 dJan31
            dNext1 dNext31 "c").2.1) dJan1 dJan31 = [] := by
  decide

/-- C5 amended: a partition whose data load or conversion fails is skipped
with no effect whatsoever: the loop on it followed by any tail equals the
loop on the tail alone (so no fit, no processing record, no checkpoint, and
the run continues with the next partition); and it is still returned as
remaining by a later run over the same range *provided* its month was not
recorded as processed by some other file of the same `(year, month)` (the
counterexample shows the unconditional version fails, since completion is
tracked per month). -/
theorem c5_failed_partition_skipped :
    (∀ (env : RunEnv) (cm : CMState) (pred : Option Nat) (ts : TrainingState)
        (tr : List Ev) (p : PEntry) (rest : List PEntry),
        (env.loadOk p = false ∨ env.convertOk p = false) →
        processLoop env cm pred ts tr (p :: rest) = processLoop env cm pred ts tr rest)
      ∧ (∀ (fs : FS) (cm : CMState) (s e : Date) (p : PEntry),
          (p.year, p.month) ∉ processedOf cm → p ∈ get_parquet_files fs s e →
          p ∈ get_remaining_files fs (some cm) s e) := by
  constructor
  · intro env cm pred ts tr p rest h
    by_cases hl : env.loadOk p = false
    · simp [processLoop, hl]
    · have hl' : env.loadOk p = true := by
        revert hl
        cases env.loadOk p <;> simp
      have hc : env.convertOk p = false := by
        rcases h with h | h
        · exact absurd h hl
        · exact h
      simp [processLoop, hl', hc]
  · intro fs cm s e p hnp hp
    simp [get_remaining_files, List.mem_filter, hp, hnp]

/-- C5 witness: the skip theorem applied to the environment in which file 1
fails to load: the loop over both January files equals the loop over file 2
alone. -/
theorem c5_failed_partition_witness :
    processLoop envSkip1 CMState.empty none tsFresh [] [⟨1, 2020, 1⟩, ⟨2, 2020, 1⟩]
      = processLoop envSkip1 CMState.empty none tsFresh [] [⟨2, 2020, 1⟩] :=
  c5_failed_partition_skipped.1 envSkip1 CMState.empty none tsFresh []
    ⟨1, 2020, 1⟩ [⟨2, 2020, 1⟩] (Or.inl rfl)

/-! ### Version-registry lemmas -/

theorem dictInsert_append {β : Type} (l : List (String × β)) (k : String) (v : β)
    (h : ∀ x ∈ l, x.1 ≠ k) : dictInsert l k v = l ++ [(k, v)] := by
  unfold dictInsert
  rw [if_neg]
  simp only [List.any_eq_true, decide_eq_true_eq, not_exists, not_and]
  exact fun x hx => h x hx

theorem buildVersions_length (base : FPath) (dr : String → String × String)
    (mtr : String → Metrics) :
    ∀ (vids : List String) (c : Nat),
      (buildVersions base dr mtr vids c).length = vids.length := by
  intro vids
  induction vids with
  | nil => intro c; rfl
  | cons v vs ih => intro c; simp [buildVersions, ih]

theorem buildVersions_keys (base : FPath) (dr : String → String × String)
    (mtr : String → Metrics) :
    ∀ (vids : List String) (c : Nat),
      (buildVersions base dr mtr vids c).map Prod.fst = vids := by
  intro vids
  induction vids with
  | nil => intro c; rfl
  | cons v vs ih => intro c; simp [buildVersions, ih]

theorem buildVersions_clock_le (base : FPath) (dr : String → String × String)
    (mtr : String → Metrics) :
    ∀ (vids : List String) (c : Nat) (x : String × VInfo),
      x ∈ buildVersions base dr mtr vids c → c ≤ x.2.created_at := by
  intro vids
  induction vids with
  | nil => intro c x hx; simp [buildVersions] at hx
  | cons v vs ih =>
    intro c x hx
    rcases List.mem_cons.mp hx with rfl | hx
    · exact Nat.le_refl c
    · exact Nat.le_of_succ_le (ih (c + 1) x hx)

theorem buildVersions_pairwise (base : FPath) (dr : String → String × String)
    (mtr : String → Metrics) :
    ∀ (vids : List String) (c : Nat),
      List.Pairwise (fun a b : String × VInfo => a.2.created_at < b.2.created_at)
        (buildVersions base dr mtr vids c) := by
  intro vids
  induction vids with
  | nil => intro c; exact List.Pairwise.nil
  | cons v vs ih =>
    intro c
    refine List.Pairwise.cons ?_ (ih (c + 1))
    intro x hx
    exact Nat.lt_of_lt_of_le (Nat.lt_succ_self c) (buildVersions_clock_le _ _ _ vs (c + 1) x hx)

theorem buildVersions_model_path (base : FPath) (dr : String → String × String)
    (mtr : String → Metrics) :
    ∀ (vids : List String) (c : Nat) (x : String × VInfo),
      x ∈ buildVersions base dr mtr vids c → x.2.model_path = base ++ [x.1] := by
  intro vids
  induction vids with
  | nil => intro c x hx; simp [buildVersions] at hx
  | cons v vs ih =>
    intro c x hx
    rcases List.mem_cons.mp hx with rfl | hx
    · rfl
    · exact ih (c + 1) x hx

theorem registerAll_shape (dr : String → String × String) (mtr : String → Metrics) :
    ∀ (vids : List String) (st : MVState), vids.Nodup →
      (∀ v ∈ vids, ∀ x ∈ st.model_versions, x.1 ≠ v) →
      (∀ v ∈ vids, ∀ x ∈ st.performance_history, x.1 ≠ v) →
      (registerAll dr mtr st vids).model_versions
          = st.model_versions ++ buildVersions st.model_base_path dr mtr vids st.clock
        ∧ (registerAll dr mtr st vids).performance_history
            = st.performance_history ++ vids.map (fun v => (v, mtr v))
        ∧ (registerAll dr mtr st vids).model_base_path = st.model_base_path
        ∧ (registerAll dr mtr st vids).max_versions = st.max_versions
        ∧ (∀ p ∈ st.disk, p ∈ (registerAll dr mtr st vids).disk) := by
  intro vids
  induction vids with
  | nil =>
    intro st _ _ _
    exact ⟨by simp [registerAll, buildVersions], by simp [registerAll], rfl, rfl,
      fun p hp => hp⟩
  | cons v vs ih =>
    intro st hnd hmv hph
    have hv_mv : ∀ x ∈ st.model_versions, x.1 ≠ v :=
      hmv v (List.mem_cons_self _ _)
    have hv_ph : ∀ x ∈ st.performance_history, x.1 ≠ v :=
      hph v (List.mem_cons_self _ _)
    have hreg : registerVersion st v (dr v) (mtr v)
        = { st with
            previous_version := st.current_version
            current_version := some v
            model_versions := st.model_versions
              ++ [(v, ⟨st.model_base_path ++ [v], dr v, mtr v, st.clock⟩)]
            performance_history := st.performance_history ++ [(v, mtr v)]
            disk := addDir st.disk (st.model_base_path ++ [v])
            clock := st.clock + 1 } := by
      unfold registerVersion save_model_version update_version_tracking
      simp [dictInsert_append _ _ _ hv_mv, dictInsert_append _ _ _ hv_ph]
    have hvnotvs : v ∉ vs := (List.nodup_cons.mp hnd).1
    have hnd' : vs.Nodup := (List.nodup_cons.mp hnd).2
    have hmv' : ∀ w ∈ vs, ∀ x ∈ (registerVersion st v (dr v) (mtr v)).model_versions,
        x.1 ≠ w := by
      intro w hw x hx
      rw [hreg] at hx
      simp only [List.mem_append, List.mem_singleton] at hx
      rcases hx with hx | rfl
      · exact hmv w (List.mem_cons_of_mem _ hw) x hx
      · intro hc
        apply hvnotvs
        rw [← hc] at hw
        exact hw
    have hph' : ∀ w ∈ vs, ∀ x ∈ (registerVersion st v (dr v) (mtr v)).performance_history,
        x.1 ≠ w := by
      intro w hw x hx
      rw [hreg] at hx
      simp only [List.mem_append, List.mem_singleton] at hx
      rcases hx with hx | rfl
      · exact hph w (List.mem_cons_of_mem _ hw) x hx
      · intro hc
        apply hvnotvs
        rw [← hc] at hw
        exact hw
    obtain ⟨h1, h2, h3, h4, h5⟩ := ih (registerVersion st v (dr v) (mtr v)) hnd' hmv' hph'
    have hstep : registerAll dr mtr st (v :: vs)
        = registerAll dr mtr (registerVersion st v (dr v) (mtr v)) vs := rfl
    refine ⟨?_, ?_, ?_, ?_, ?_⟩
    · rw [hstep, h1, hreg]
      simp [buildVersions]
    · rw [hstep, h2, hreg]
      simp
    · rw [hstep, h3, hreg]
    · rw [hstep, h4, hreg]
    · intro p hp
      rw [hstep]
      refine h5 p ?_
      rw [hreg]
      simp only [addDir]
      split
      · exact hp
      · exact List.mem_append_left _ hp

theorem isPrefixOf_self_append (l t : List String) : l.isPrefixOf (l ++ t) = true := by
  induction l with
  | nil => simp [List.isPrefixOf]
  | cons a l ih => simp [List.isPrefixOf, ih]

theorem dictErase_head {β : Type} (k : String) (b : β) (L : List (String × β))
    (h : ∀ x ∈ L, x.1 ≠ k) : dictErase ((k, b) :: L) k = L := by
  have hL : List.filter (fun x => decide ¬x.1 = k) L = L :=
    List.filter_eq_self.mpr fun x hx => by simp [h x hx]
  simp [dictErase, hL]
  intro a b hab
  exact h (a, b) hab

theorem foldl_dictErase_take {β : Type} :
    ∀ (ks : List String) (L : List (String × β)), (L.map Prod.fst).Nodup →
      ks = (L.map Prod.fst).take ks.length →
      ks.foldl dictErase L = L.drop ks.length := by
  intro ks
  induction ks with
  | nil => intro L _ _; rfl
  | cons k ks ih =>
    intro L hnd hks
    rcases L with _ | ⟨⟨k0, b⟩, L'⟩
    · simp at hks
    · simp only [List.map_cons, List.length_cons, List.take_succ_cons,
        List.cons.injEq] at hks
      obtain ⟨rfl, hks'⟩ := hks
      have hnd' : (L'.map Prod.fst).Nodup := (List.nodup_cons.mp (by simpa using hnd)).2
      have hknot : k ∉ L'.map Prod.fst := (List.nodup_cons.mp (by simpa using hnd)).1
      have hnotin : ∀ x ∈ L', x.1 ≠ k := by
        intro x hx hc
        apply hknot
        rw [← hc]
        exact List.mem_map_of_mem _ hx
      rw [List.foldl_cons, dictErase_head k b L' hnotin, ih L' hnd' hks']
      rfl

theorem foldl_evict_model_versions (xs : List (String × VInfo)) :
    ∀ st : MVState, (xs.foldl evictVersion st).model_versions
      = ((xs.map Prod.fst).foldl dictErase st.model_versions) := by
  induction xs with
  | nil => intro st; rfl
  | cons x xs ih =>
    intro st
    rw [List.foldl_cons, List.map_cons, List.foldl_cons]
    exact ih (evictVersion st x)

theorem foldl_evict_performance_history (xs : List (String × VInfo)) :
    ∀ st : MVState, (xs.foldl evictVersion st).performance_history
      = ((xs.map Prod.fst).foldl dictErase st.performance_history) := by
  induction xs with
  | nil => intro st; rfl
  | cons x xs ih =>
    intro st
    rw [List.foldl_cons, List.map_cons, List.foldl_cons]
    exact ih (evictVersion st x)

theorem evict_disk_subset (st : MVState) (x : String × VInfo) :
    ∀ q ∈ (evictVersion st x).disk, q ∈ st.disk := by
  intro q hq
  by_cases h : x.2.model_path.dropLast ∈ st.disk
  · simp only [evictVersion, if_pos h, rmtree, List.mem_filter] at hq
    exact hq.1
  · simp only [evictVersion, if_neg h] at hq
    exact hq

theorem foldl_evict_disk_subset (xs : List (String × VInfo)) :
    ∀ (st : MVState) (q : FPath), q ∈ (xs.foldl evictVersion st).disk → q ∈ st.disk := by
  induction xs with
  | nil => intro st q hq; exact hq
  | cons x xs ih =>
    intro st q hq
    exact evict_disk_subset st x q (ih (evictVersion st x) q hq)

/-- C8: registering `max_versions + k` distinct versions (k > 0) through the
version store and then running `cleanup_old_versions` leaves exactly
`max_versions` tracked versions in both `model_versions` and
`performance_history`; the tracked list is in strictly increasing creation
order, so the evicted entries — the first `k` registered — are the `k` oldest
by creation timestamp and the retained set is the `max_versions`
most-recently-created; and each evicted version's own storage directory is
gone from disk afterwards. -/
theorem c8_version_eviction_bound (base : FPath) (maxv k : Nat)
    (dr : String → String × String) (mtr : String → Metrics) (vids : List String)
    (hk : 0 < k) (hnd : vids.Nodup) (hlen : vids.length = maxv + k) :
    (cleanup_old_versions (registerAll dr mtr (MVState.init base maxv) vids)).model_versions.map
        Prod.fst = vids.drop k
      ∧ (cleanup_old_versions (registerAll dr mtr (MVState.init base maxv)
          vids)).performance_history.map Prod.fst = vids.drop k
      ∧ (cleanup_old_versions (registerAll dr mtr (MVState.init base maxv)
          vids)).model_versions.length = maxv
      ∧ (registerAll dr mtr (MVState.init base maxv) vids).model_versions.map Prod.fst
          = vids
      ∧ List.Pairwise (fun a b : String × VInfo => a.2.created_at < b.2.created_at)
          (registerAll dr mtr (MVState.init base maxv) vids).model_versions
      ∧ (∀ v ∈ vids.take k,
          (base ++ [v]) ∉ (cleanup_old_versions (registerAll dr mtr
            (MVState.init base maxv) vids)).disk) := by
  obtain ⟨hmv, hph, hbase, hmax, hdisk⟩ :=
    registerAll_shape dr mtr vids (MVState.init base maxv) hnd
      (by intro v _ x hx; simp [MVState.init] at hx)
      (by intro v _ x hx; simp [MVState.init] at hx)
  rw [show (MVState.init base maxv).model_versions = [] from rfl, List.nil_append] at hmv
  rw [show (MVState.init base maxv).performance_history = [] from rfl,
    List.nil_append] at hph
  rw [show (MVState.init base maxv).model_base_path = base from rfl] at hmv hbase
  rw [show (MVState.init base maxv).clock = 0 from rfl] at hmv
  rw [show (MVState.init base maxv).max_versions = maxv from rfl] at hmax
  have hkeys : (buildVersions base dr mtr vids 0).map Prod.fst = vids :=
    buildVersions_keys base dr mtr vids 0
  have hBlen : (buildVersions base dr mtr vids 0).length = vids.length :=
    buildVersions_length base dr mtr vids 0
  have hpw : List.Pairwise (fun a b : String × VInfo => a.2.created_at < b.2.created_at)
      (registerAll dr mtr (MVState.init base maxv) vids).model_versions := by
    rw [hmv]
    exact buildVersions_pairwise base dr mtr vids 0
  have hcond : ¬((registerAll dr mtr (MVState.init base maxv) vids).model_versions.length
      ≤ (registerAll dr mtr (MVState.init base maxv) vids).max_versions) := by
    rw [hmv, hBlen, hlen, hmax]
    omega
  have hsorted : List.insertionSort
      (fun a b : String × VInfo => a.2.created_at ≤ b.2.created_at)
      (registerAll dr mtr (MVState.init base maxv) vids).model_versions
      = (registerAll dr mtr (MVState.init base maxv) vids).model_versions :=
    List.Sorted.insertionSort_eq (hpw.imp fun h => Nat.le_of_lt h)
  have hcnt : (registerAll dr mtr (MVState.init base maxv) vids).model_versions.length
      - (registerAll dr mtr (MVState.init base maxv) vids).max_versions = k := by
    rw [hmv, hBlen, hlen, hmax]
    omega
  have hclean : cleanup_old_versions (registerAll dr mtr (MVState.init base maxv) vids)
      = (((registerAll dr mtr (MVState.init base maxv) vids).model_versions.take k).foldl
          evictVersion (registerAll dr mtr (MVState.init base maxv) vids)) := by
    rw [cleanup_old_versions, if_neg hcond, hsorted, hcnt]
  have htklen : (vids.take k).length = k := by
    rw [List.length_take, hlen]
    omega
  have htake : ((registerAll dr mtr (MVState.init base maxv) vids).model_versions.take
      k).map Prod.fst = vids.take k := by
    rw [hmv, List.map_take, hkeys]
  have hfinmv : (cleanup_old_versions (registerAll dr mtr (MVState.init base maxv)
      vids)).model_versions = (buildVersions base dr mtr vids 0).drop k := by
    rw [hclean, foldl_evict_model_versions, htake, hmv]
    have := foldl_dictErase_take (vids.take k) (buildVersions base dr mtr vids 0)
      (by rw [hkeys]; exact hnd)
      (by rw [hkeys, htklen])
    rw [this, htklen]
  have hP : (vids.map fun v => (v, mtr v)).map Prod.fst = vids := by
    rw [List.map_map]
    exact List.map_id'' (fun v => rfl) vids
  have hfinph : (cleanup_old_versions (registerAll dr mtr (MVState.init base maxv)
      vids)).performance_history = (vids.map fun v => (v, mtr v)).drop k := by
    rw [hclean, foldl_evict_performance_history, htake, hph]
    have := foldl_dictErase_take (vids.take k) (vids.map fun v => (v, mtr v))
      (by rw [hP]; exact hnd)
      (by rw [hP, htklen])
    rw [this, htklen]
  refine ⟨?_, ?_, ?_, by rw [hmv, hkeys], hpw, ?_⟩
  · rw [hfinmv, List.map_drop, hkeys]
  · rw [hfinph, List.map_drop, hP]
  · rw [hfinmv, List.length_drop, hBlen, hlen]
    omega
  · intro v hv
    rcases hBk : (registerAll dr mtr (MVState.init base maxv) vids).model_versions.take k
      with _ | ⟨x0, xs'⟩
    · exfalso
      have : ((registerAll dr mtr (MVState.init base maxv)
          vids).model_versions.take k).length = 0 := by rw [hBk]; rfl
      rw [List.length_take, hmv, hBlen, hlen] at this
      omega
    · have hx0B : x0 ∈ (registerAll dr mtr (MVState.init base maxv) vids).model_versions := by
        have : x0 ∈ (registerAll dr mtr (MVState.init base maxv)
            vids).model_versions.take k := by
          rw [hBk]
          exact List.mem_cons_self _ _
        exact List.take_subset _ _ this
      have hx0path : x0.2.model_path = base ++ [x0.1] := by
        refine buildVersions_model_path base dr mtr vids 0 x0 ?_
        rw [← hmv]
        exact hx0B
      have hx0parent : x0.2.model_path.dropLast = base := by
        rw [hx0path]
        simp
      have hbasein : base ∈ (registerAll dr mtr (MVState.init base maxv) vids).disk := by
        refine hdisk base ?_
        simp [MVState.init]
      have hd1 : (evictVersion (registerAll dr mtr (MVState.init base maxv) vids)
          x0).disk = rmtree (registerAll dr mtr (MVState.init base maxv) vids).disk
          base := by
        simp only [evictVersion, hx0parent, if_pos hbasein]
      intro hmem
      rw [hclean, hBk, List.foldl_cons] at hmem
      have hmem1 : (base ++ [v])
          ∈ (evictVersion (registerAll dr mtr (MVState.init base maxv) vids) x0).disk :=
        foldl_evict_disk_subset xs' _ _ hmem
      rw [hd1] at hmem1
      simp only [rmtree, List.mem_filter, decide_eq_true_eq] at hmem1
      apply hmem1.2
      exact isPrefixOf_self_append base [v]

/-- C8 witness: the eviction-bound theorem applied concretely: with
`max_versions = 1`, registering versions `v1` then `v2` and cleaning up
retains exactly `v2` and removes `v1`'s storage directory from disk. -/
theorem c8_version_eviction_witness :
    (cleanup_old_versions (registerAll (fun _ => ("a", "b"))
        (fun _ => (⟨1, 1, 1, 1⟩ : Metrics)) (MVState.init ["m"] 1)
        ["v1", "v2"])).model_versions.map Prod.fst = ["v2"]
      ∧ (cleanup_old_versions (registerAll (fun _ => ("a", "b"))
          (fun _ => (⟨1, 1, 1, 1⟩ : Metrics)) (MVState.init ["m"] 1)
          ["v1", "v2"])).model_versions.length = 1
      ∧ ["m", "v1"] ∉ (cleanup_old_versions (registerAll (fun _ => ("a", "b"))
          (fun _ => (⟨1, 1, 1, 1⟩ : Metrics)) (MVState.init ["m"] 1)
          ["v1", "v2"])).disk := by
  have h := c8_version_eviction_bound ["m"] 1 1 (fun _ => ("a", "b"))
    (fun _ => (⟨1, 1, 1, 1⟩ : Metrics)) ["v1", "v2"] (by decide) (by decide) (by decide)
  exact ⟨h.1, h.2.2.1, h.2.2.2.2.2 "v1" (by decide)⟩

end Chronos
